import Mathlib

/-!
Shallow embedding of the task-queue and filesystem-reconciliation core of
voicetestrs (src/tauri/src-tauri): database/utils.rs, queue_manager.rs and
sync/mod.rs, together with theorems settling the specification claims.

Modelling conventions:
* SQLite tables are Lean lists of rows in rowid (insertion) order.
* `datetime('now')` values and filesystem timestamps are `Nat`s supplied by
  the caller; UUIDs are drawn from a counter, their text is never inspected.
* Each SQL statement of the source is one Lean state transformer; the single
  `UPDATE ... RETURNING` statement of `claim_next_task` is one atomic step,
  and concurrent claimers are modelled as interleavings of whole steps.
* Paths are ASCII strings, so Rust byte indices coincide with char indices.
-/

namespace VoiceTextRS

/-- The pattern removed by `without_ext.replace("-voice-note", "")`. -/
def vnPat : List Char := "-voice-note".data

/-- Fuelled worker for `stripVoiceNote`; the fuel only serves to make the
recursion structural (each step strictly shortens the list, so
`l.length + 1` fuel is never exhausted). -/
def stripVNA : Nat → List Char → List Char
  | 0, l => l
  | _ + 1, [] => []
  | fuel + 1, c :: rest =>
    if vnPat.isPrefixOf (c :: rest) then stripVNA fuel (rest.drop 10)
    else c :: stripVNA fuel rest

/-- `str::replace(.., "-voice-note", "")`: left-to-right removal of every
non-overlapping occurrence. -/
def stripVoiceNote (l : List Char) : List Char := stripVNA (l.length + 1) l

/-- `str::split('-')`: "a--b" splits into ["a", "", "b"], "" into [""]. -/
def splitOnHyphen (l : List Char) : List (List Char) :=
  l.foldr (fun c acc =>
    if c = '-' then [] :: acc
    else match acc with
      | [] => [[c]]
      | h :: t => (c :: h) :: t) [[]]

/-- The fixed date hard-coded in database/utils.rs. -/
def defaultDate : List Char := "20250810".data

/-- `generate_id_from_filename` (database/utils.rs:63-108).  Note that the
source derives the id from the file name alone; no directory is consulted. -/
def generate_id_from_filename (filename : String) : String :=
  let without_ext := filename.data.takeWhile (fun c => c ≠ '.')
  let without_suffix := stripVoiceNote without_ext
  let hyphenCase : Option (List Char) :=
    if without_suffix.contains '-' then
      let parts := splitOnHyphen without_suffix
      if parts.length = 2 ∧ (parts.getD 0 []).length = 8 ∧ (parts.getD 1 []).length = 6 then
        some (parts.getD 0 [] ++ parts.getD 1 [])
      else if parts.length = 1 ∧ (parts.getD 0 []).length = 6 then
        some (defaultDate ++ parts.getD 0 [])
      else none
    else none
  match hyphenCase with
  | some r => ⟨r⟩
  | none =>
    if without_suffix.length = 6 ∧ without_suffix.all Char.isDigit then
      ⟨defaultDate ++ without_suffix⟩
    else if without_suffix.length = 14 ∧ without_suffix.all Char.isDigit then
      ⟨without_suffix⟩
    else
      let digits_only := without_suffix.filter Char.isDigit
      if digits_only.length ≥ 14 then ⟨digits_only.take 14⟩
      else if digits_only.length ≥ 6 then ⟨defaultDate ++ digits_only.take 6⟩
      else ⟨without_ext⟩

/-- Index of the first occurrence of `pat` in a char list, as `str::find`. -/
def findSubIdx (pat : List Char) : List Char → Option Nat
  | [] => if pat.isEmpty then some 0 else none
  | c :: rest =>
    if pat.isPrefixOf (c :: rest) then some 0
    else (findSubIdx pat rest).map (· + 1)

/-- Force separators to forward slashes (`str::replace('\\', "/")`). -/
def normSeps (l : List Char) : List Char := l.map (fun c => if c = '\\' then '/' else c)

/-- Four consecutive ASCII digits start at index `i`. -/
def isDigit4At (s : List Char) (i : Nat) : Bool :=
  match s.drop i with
  | a :: b :: c :: d :: _ => a.isDigit && b.isDigit && c.isDigit && d.isDigit
  | _ => false

/-- `extract_date_path` (database/utils.rs:43-58).  The source scans start
positions `0..len.saturating_sub(4)`, so the last possible 4-digit start is
never tested; `List.range (s.length - 4)` reproduces that range. -/
def extract_date_path (s : List Char) : Option (List Char) :=
  ((List.range (s.length - 4)).find? (fun i => isDigit4At s i)).map
    (fun i => normSeps (s.drop i))

/-- `Path::file_name` under Windows separator rules, with the `unwrap_or("")`
of the caller folded in. -/
def fileNameOf (s : List Char) : List Char :=
  (s.reverse.takeWhile (fun c => ¬ (c = '/' ∨ c = '\\'))).reverse

/-- `normalize_audio_path` (database/utils.rs:10-40) on the path's string
form: strip a `\\?\` prefix, cut after the first occurrence of "notes",
else fall back to the first 4-digit run, else to the bare file name. -/
def normalize_audio_path (path : String) : String :=
  let cs := path.data
  let s := if ("\\\\?\\".data).isPrefixOf cs then cs.drop 4 else cs
  match findSubIdx ("notes".data) s with
  | some i =>
    let after_notes := s.drop (i + 5)
    let trimmed := (after_notes.dropWhile (fun c => c = '\\')).dropWhile (fun c => c = '/')
    ⟨normSeps trimmed⟩
  | none =>
    match extract_date_path s with
    | some r => ⟨r⟩
    | none => ⟨fileNameOf cs⟩

/-- A row of the `transcriptions` table (database/models.rs `Transcription`).
`duration_seconds` is an `f64` in the source but the modelled code only ever
stores the constant 0 in it, so it is a `Nat` here; `metadata` is the raw
sidecar JSON text. -/
structure TransRow where
  id : String
  audioPath : String
  textPath : Option String
  transcriptionText : Option String
  createdAt : Nat
  transcribedAt : Option Nat
  durationSeconds : Nat
  fileSizeBytes : Nat
  language : String
  model : String
  status : String
  source : String
  errorMessage : Option String
  metadata : Option String
  sessionId : Option String
deriving Repr, DecidableEq

/-- A row of the `background_tasks` table (queue_manager.rs `BackgroundTask`
as persisted).  `taskType` is the stored `task_type` column tag and
`payload` the stored JSON text. -/
structure TaskRow where
  id : String
  transcriptionId : String
  taskType : String
  priority : Nat
  status : String
  createdAt : Nat
  startedAt : Option Nat
  completedAt : Option Nat
  retryCount : Nat
  maxRetries : Nat
  errorMessage : Option String
  payload : String
deriving Repr, DecidableEq

/-- The two tables of the SQLite database, rows in rowid order. -/
structure DB where
  tasks : List TaskRow
  transcriptions : List TransRow
deriving Repr, DecidableEq

def isPending (t : TaskRow) : Bool := t.status == "pending"

/-- `b` sorts strictly before `a` under `ORDER BY priority DESC, created_at`. -/
def sortsBefore (b a : TaskRow) : Bool :=
  b.priority > a.priority || (b.priority == a.priority && b.createdAt < a.createdAt)

def pickBetter (a b : TaskRow) : TaskRow := if sortsBefore b a then b else a

/-- Greedy minimum of a nonempty candidate list, keeping the earlier (lower
rowid) row on full ties, as a `LIMIT 1` scan does. -/
def selectFrom (best : TaskRow) : List TaskRow → TaskRow
  | [] => best
  | t :: rest => selectFrom (pickBetter best t) rest

/-- The row selected by `SELECT id FROM background_tasks WHERE status =
'pending' ORDER BY priority DESC, created_at LIMIT 1`. -/
def selectPendingTask (tasks : List TaskRow) : Option TaskRow :=
  match tasks.filter isPending with
  | [] => none
  | t :: rest => some (selectFrom t rest)

/-- `QueueManager::claim_next_task` (queue_manager.rs:316-387): the single
`UPDATE ... SET status = 'processing', started_at = now WHERE id = (SELECT
...) RETURNING *` statement, one atomic step on the database. -/
def claimNextTask (db : DB) (now : Nat) : DB × Option TaskRow :=
  match selectPendingTask db.tasks with
  | none => (db, none)
  | some t =>
    let t2 := { t with status := "processing", startedAt := some now }
    ({ db with tasks := db.tasks.map (fun r => if r.id = t.id then t2 else r) }, some t2)

/-- `n` claim attempts, each one whole atomic `claim_next_task` statement;
returns the claimed task id (if any) of each attempt in order. -/
def runClaims (now : Nat) : Nat → DB → List (Option String)
  | 0, _ => []
  | n + 1, db =>
    let st := claimNextTask db now
    (st.2.map TaskRow.id) :: runClaims now n st.1

def pendingCount (db : DB) : Nat := db.tasks.countP isPending

def claimedCount (tid : String) (l : List (Option String)) : Nat :=
  l.countP (fun o => o == some tid)

/-- The worker's failure handling (queue_manager.rs:172-193) combined with
the row effect of `retry_task` (`SET status = 'pending', retry_count =
retry_count + 1`) resp. `fail_task` (`SET status = 'failed', error_message =
?`): the decision reads the claimed row's counters. -/
def failStep (t : TaskRow) (err : String) : TaskRow :=
  if t.retryCount < t.maxRetries then
    { t with status := "pending", retryCount := t.retryCount + 1 }
  else
    { t with status := "failed", errorMessage := some err }

/-- `QueueManager::complete_task` (queue_manager.rs:468-497): one SQLite
transaction updating the task row, reading its `transcription_id`
(`fetch_one` fails when no such row exists, rolling the transaction back,
modelled by `none`) and updating the linked transcription row. -/
def completeTask (db : DB) (taskId text : String) (now : Nat) : Option DB :=
  let tasks2 := db.tasks.map (fun r =>
    if r.id = taskId then { r with status := "completed", completedAt := some now } else r)
  match tasks2.find? (fun r => r.id == taskId) with
  | none => none
  | some row =>
    some { tasks := tasks2,
           transcriptions := db.transcriptions.map (fun tr =>
             if tr.id = row.transcriptionId then
               { tr with status := "complete", transcriptionText := some text,
                         transcribedAt := some now }
             else tr) }

/-- Substring test, modelling `payload LIKE '%FileSystemSync%'` (the pattern
contains no `_`/`%` metacharacters; every payload the program writes uses
this exact letter case). -/
def containsSub (pat s : String) : Bool :=
  (findSubIdx pat.data s.data).isSome

/-- A sync task that blocks `enqueue_sync_task`: `payload LIKE
'%FileSystemSync%' AND status IN ('pending', 'processing')`. -/
def syncActive (r : TaskRow) : Bool :=
  containsSub "FileSystemSync" r.payload &&
    (r.status == "pending" || r.status == "processing")

/-- The payload text `serde_json::json!` produces for a sync task. -/
def syncPayload (fullScan : Bool) : String :=
  "\x7b\"type\":\"FileSystemSync\",\"full_scan\":" ++
    (if fullScan then "true" else "false") ++ "\x7d"

/-- The row inserted by `enqueue_sync_task` (queue_manager.rs:288-296). -/
def mkSyncTask (taskId : String) (fullScan : Bool) (now : Nat) : TaskRow :=
  { id := taskId, transcriptionId := taskId, taskType := "FileSystemSync",
    priority := 0, status := "pending", createdAt := now,
    startedAt := none, completedAt := none,
    retryCount := 0, maxRetries := 1, errorMessage := none,
    payload := syncPayload fullScan }

/-- `QueueManager::enqueue_sync_task` (queue_manager.rs:263-300): skip the
insert (returning success) when a matching pending/processing task exists. -/
def enqueueSyncTask (db : DB) (taskId : String) (fullScan : Bool) (now : Nat) : DB :=
  if db.tasks.any syncActive then db
  else { db with tasks := db.tasks ++ [mkSyncTask taskId fullScan now] }

def countSyncActive (db : DB) : Nat := db.tasks.countP syncActive

/-- A file below the notes root: the directory components under the root,
the file name, its text content (read when the file is a `.txt`/`.json`
sidecar), its byte size and its created/modified timestamps. -/
structure FSFile where
  dirs : List String
  name : String
  content : String
  size : Nat
  created : Nat
  modified : Nat
deriving Repr, DecidableEq

/-- The notes tree, files in the order the `WalkDir` traversal yields them. -/
structure FS where
  files : List FSFile
deriving Repr, DecidableEq

def afterLastDot (l : List Char) : List Char :=
  (l.reverse.takeWhile (fun c => c ≠ '.')).reverse

def beforeLastDot (l : List Char) : List Char :=
  ((l.reverse.dropWhile (fun c => c ≠ '.')).drop 1).reverse

/-- `Path::extension`: the part after the last dot of the file name, none
when there is no dot past the first character. -/
def extOf (name : String) : Option String :=
  match name.data with
  | [] => none
  | _ :: rest => if rest.contains '.' then some ⟨afterLastDot rest⟩ else none

/-- `Path::with_extension`: replace (or append) the extension. -/
def withExt (name ext2 : String) : String :=
  match extOf name with
  | some _ => (⟨beforeLastDot name.data⟩ : String) ++ "." ++ ext2
  | none => name ++ "." ++ ext2

/-- The extension filter of `scan_audio_files` (sync/mod.rs:77-96). -/
def isAudioFile (f : FSFile) : Bool :=
  match extOf f.name with
  | some e => e == "wav" || e == "mp3" || e == "m4a" || e == "ogg"
  | none => false

def scanAudioFiles (fs : FS) : List FSFile := fs.files.filter isAudioFile

/-- Sibling lookup: a file in the same directory with the given name. -/
def findSibling (fs : FS) (f : FSFile) (name2 : String) : Option FSFile :=
  fs.files.find? (fun g => g.dirs == f.dirs && g.name == name2)

/-- The absolute path of a file, with the notes root spelled "notes", as the
sync code passes to `normalize_audio_path`. -/
def fullPathOf (f : FSFile) : String :=
  String.intercalate "/" ("notes" :: (f.dirs ++ [f.name]))

/-- `FileSystemSync::create_transcription_from_file` (sync/mod.rs:158-226):
the id comes from the file name alone, the status is "complete" with the
sibling text when a `.txt` sibling exists and "orphaned" otherwise. -/
def createTranscriptionFromFile (fs : FS) (f : FSFile) : TransRow :=
  let id := generate_id_from_filename f.name
  let txtName := withExt f.name "txt"
  let jsonMeta := (findSibling fs f (withExt f.name "json")).map (fun g => g.content)
  match findSibling fs f txtName with
  | some g =>
    { id := id, audioPath := normalize_audio_path (fullPathOf f),
      textPath := some (normalize_audio_path (fullPathOf { f with name := txtName })),
      transcriptionText := some g.content,
      createdAt := f.created, transcribedAt := some g.modified,
      durationSeconds := 0, fileSizeBytes := f.size,
      language := "en", model := "base.en",
      status := "complete", source := "import",
      errorMessage := none, metadata := jsonMeta, sessionId := none }
  | none =>
    { id := id, audioPath := normalize_audio_path (fullPathOf f),
      textPath := none, transcriptionText := none,
      createdAt := f.created, transcribedAt := none,
      durationSeconds := 0, fileSizeBytes := f.size,
      language := "en", model := "base.en",
      status := "orphaned", source := "import",
      errorMessage := none, metadata := jsonMeta, sessionId := none }

/-- `Database::insert_transcription`: a plain `INSERT`, which fails on a
primary-key collision (the error propagates to the per-file handler). -/
def insertTranscription (db : DB) (t : TransRow) : Option DB :=
  if db.transcriptions.any (fun r => r.id == t.id) then none
  else some { db with transcriptions := db.transcriptions ++ [t] }

/-- `FileSystemSync::needs_update` (sync/mod.rs:228-233). -/
def needsUpdate (existing new : TransRow) : Bool :=
  existing.status != new.status ||
    existing.transcriptionText != new.transcriptionText ||
    existing.fileSizeBytes != new.fileSizeBytes

def uuidName (u : Nat) : String := "uuid-" ++ toString u

/-- The `TranscribeOrphan` task enqueued for a new orphaned record
(sync/mod.rs:112-131 together with `enqueue_task`, queue_manager.rs:553-577).
`created_at` is `datetime('now')` in the source; the model fixes it to 0,
no claim depends on it. -/
def mkOrphanTask (taskId : String) (t : TransRow) (f : FSFile) : TaskRow :=
  { id := taskId, transcriptionId := t.id, taskType := "TranscribeOrphan",
    priority := 0, status := "pending", createdAt := 0,
    startedAt := none, completedAt := none,
    retryCount := 0, maxRetries := 2, errorMessage := none,
    payload := "\x7b\"audio_path\":\"" ++ fullPathOf f ++ "\"\x7d" }

/-- State threaded through one reconciliation pass: the database, the UUID
counter and the three report counters. -/
structure PassState where
  db : DB
  uuid : Nat
  newCount : Nat
  updCount : Nat
  errCount : Nat
deriving Repr, DecidableEq

/-- `FileSystemSync::process_audio_file` (sync/mod.rs:98-156).  `existingIds`
is the id set loaded once at the start of the pass; an insert failure is
collected as a per-file error; the `needs_update` branch only counts, the
source writes nothing there.  `qm` models the `queue_manager :
Option<Arc<QueueManager>>` field: the orphan task is enqueued only inside
the `if let Some(ref queue_manager)` guard of sync/mod.rs:111 — the
manually triggered sync command attaches the queue manager
(sync/mod.rs:297-298), the background worker's FileSystemSync task does not
(queue_manager.rs:416). -/
def processAudioFile (fs : FS) (qm : Bool) (existingIds : List String) (s : PassState)
    (f : FSFile) : PassState :=
  let t := createTranscriptionFromFile fs f
  if existingIds.contains t.id then
    match s.db.transcriptions.find? (fun r => r.id == t.id) with
    | some ex => if needsUpdate ex t then { s with updCount := s.updCount + 1 } else s
    | none => s
  else
    match insertTranscription s.db t with
    | none => { s with errCount := s.errCount + 1 }
    | some db1 =>
      if t.status == "orphaned" then
        if qm then
          { s with db := { db1 with tasks := db1.tasks ++ [mkOrphanTask (uuidName s.uuid) t f] },
                   uuid := s.uuid + 1, newCount := s.newCount + 1 }
        else { s with db := db1, newCount := s.newCount + 1 }
      else { s with db := db1, newCount := s.newCount + 1 }

/-- `FileSystemSync::file_exists_for_id` (sync/mod.rs:235-274): rebuild the
`YYYY/YYYY-MM-DD` directory from the id (default date when the id is bare
time) and probe the four hard-coded file-name patterns. -/
def file_exists_for_id (fs : FS) (id : String) : Bool :=
  let cs := id.data
  if cs.length ≥ 14 then
    fexProbe fs ⟨cs.take 4⟩ ⟨(cs.drop 4).take 2⟩ ⟨(cs.drop 6).take 2⟩ ⟨(cs.drop 8).take 6⟩
  else if cs.length = 6 then
    fexProbe fs "2025" "08" "10" ⟨cs⟩
  else false
where
  fexProbe (fs : FS) (year month day time : String) : Bool :=
    let dateDir : List String := [year, year ++ "-" ++ month ++ "-" ++ day]
    let patterns : List String :=
      [time ++ "-voice-note.wav", time ++ "-voice-note.mp3",
       time ++ "-voice-note.m4a", time ++ ".wav"]
    patterns.any (fun p => fs.files.any (fun g => g.dirs == dateDir && g.name == p))

/-- `Database::update_transcription_status` (database/repository.rs:88-103):
`UPDATE transcriptions SET status = ?1, error_message = ?2 WHERE id = ?3`. -/
def update_transcription_status (db : DB) (id status2 : String) (err : Option String) : DB :=
  { db with transcriptions := db.transcriptions.map (fun r =>
      if r.id = id then { r with status := status2, errorMessage := err } else r) }

/-- The deleted-file loop of `sync_filesystem` (sync/mod.rs:63-72): every
pre-existing id whose file cannot be located is marked orphaned and counted
missing, on every pass. -/
def missingPass (fs : FS) (db : DB) : List String → DB × Nat
  | [] => (db, 0)
  | id :: rest =>
    if file_exists_for_id fs id then missingPass fs db rest
    else
      let r := missingPass fs (update_transcription_status db id "orphaned" none) rest
      (r.1, r.2 + 1)

/-- The counters of `SyncReport` (database/models.rs:35-41); `errors` is the
number of collected error strings. -/
structure SyncReport where
  totalFilesFound : Nat
  newTranscriptions : Nat
  updatedTranscriptions : Nat
  missingFiles : Nat
  errors : Nat
deriving Repr, DecidableEq

/-- `FileSystemSync::sync_filesystem` (sync/mod.rs:37-75): load the existing
ids, process every scanned audio file, then mark ids without a locatable
file.  `qm` is the queue-manager presence (see `processAudioFile`); `u0`
seeds the UUID counter for enqueued tasks. -/
def syncFilesystem (fs : FS) (qm : Bool) (db : DB) (u0 : Nat) : DB × SyncReport :=
  let existingIds := db.transcriptions.map (fun r => r.id)
  let audio := scanAudioFiles fs
  let s1 := audio.foldl (processAudioFile fs qm existingIds) ⟨db, u0, 0, 0, 0⟩
  let m := missingPass fs s1.db existingIds
  (m.1, ⟨audio.length, s1.newCount, s1.updCount, m.2, s1.errCount⟩)

def idsOf (db : DB) : List String := db.transcriptions.map (fun r => r.id)

def taskCountFor (db : DB) (tid : String) : Nat :=
  db.tasks.countP (fun t => t.transcriptionId == tid)

/-- Per-row effect of the whole deleted-file loop run over `ids`. -/
def missFix (fs : FS) (ids : List String) (r : TransRow) : TransRow :=
  if ids.contains r.id && !(file_exists_for_id fs r.id) then
    { r with status := "orphaned", errorMessage := none }
  else r

/-- Net number of `TranscribeOrphan` tasks one pass adds for `tid`: one
exactly when the queue manager is attached, the first scanned file deriving
`tid` resolves orphaned, and `tid` is neither in the preloaded id set nor
already stored. -/
def passDelta (fs : FS) (qm : Bool) (eids ids0 : List String) (files : List FSFile)
    (tid : String) : Nat :=
  match files.find? (fun f => (createTranscriptionFromFile fs f).id == tid) with
  | none => 0
  | some f =>
    if tid ∈ eids ∨ tid ∈ ids0 ∨ (createTranscriptionFromFile fs f).status ≠ "orphaned" ∨
        qm = false then 0
    else 1

/-- The id-derivation rule exactly as the claim words it for a time-only
file name: the date digits come from the containing YYYY-MM-DD directory.
Stated only to be compared against the derivation the source implements. -/
def specDeriveId (dirDate timeStem : String) : String :=
  (⟨dirDate.data.filter Char.isDigit⟩ : String) ++ timeStem

/-- Concrete scenario data used by witnesses and counterexamples. -/
def emptyDB : DB := ⟨[], []⟩

def mkT (i : String) (p c : Nat) : TaskRow :=
  ⟨i, i, "TranscribeOrphan", p, "pending", c, none, none, 0, 2, none, ""⟩

def exTasks : List TaskRow := [mkT "t1" 0 0, mkT "t2" 2 1, mkT "t3" 1 2, mkT "t4" 2 3]

def twoPendingDB : DB := ⟨[mkT "a" 1 0, mkT "b" 1 1], []⟩

def exTask : TaskRow :=
  ⟨"w1", "20250810160626", "TranscribeOrphan", 0, "processing", 0, none, none, 0, 2, none, ""⟩

def recA : TransRow :=
  ⟨"20250810160626", "2025/2025-08-10/160626-voice-note.wav", none, none, 7, none, 0, 100,
   "en", "base.en", "complete", "import", none, none, none⟩

def c5db : DB := ⟨[exTask], [recA]⟩

def c5res : DB := (completeTask c5db "w1" "hello" 9).getD emptyDB

def oggFS : FS := ⟨[⟨["2025", "2025-08-10"], "160626-voice-note.ogg", "", 100, 5, 6⟩]⟩

def wavFile : FSFile := ⟨["2025", "2025-08-10"], "160626-voice-note.wav", "", 100, 5, 6⟩

def wavFS : FS := ⟨[wavFile]⟩

def wavDB1 : DB := (syncFilesystem wavFS true emptyDB 0).1

def wavTxtFS : FS := ⟨[wavFile, ⟨["2025", "2025-08-10"], "160626-voice-note.txt", "hi", 2, 5, 6⟩]⟩

def dirFile : FSFile := ⟨["2025", "2025-08-11"], "160626-voice-note.wav", "", 0, 0, 0⟩

def dirFS : FS := ⟨[dirFile]⟩

def gone : FS := ⟨[]⟩

def recDB : DB := ⟨[], [recA]⟩

/-! Theorems. -/

/-- C6: `normalize_audio_path` is a pure Lean function, hence deterministic,
and the three absolute-path spellings of the same file given by the spec all
normalize to the identical store-relative forward-slash string. -/
theorem C6_normalize_dedup :
    normalize_audio_path "D:\\x\\notes\\2025\\2025-08-10\\160626-voice-note.wav" =
      "2025/2025-08-10/160626-voice-note.wav" ∧
    normalize_audio_path "\\\\?\\D:\\x\\notes\\2025\\2025-08-10\\160626-voice-note.wav" =
      "2025/2025-08-10/160626-voice-note.wav" ∧
    normalize_audio_path "notes/2025/2025-08-10/160626-voice-note.wav" =
      "2025/2025-08-10/160626-voice-note.wav" :=
  ⟨by decide, by decide, by decide⟩

/-- C7 counterexample: for the time-only file 160626-voice-note.wav placed in
directory 2025/2025-08-11, the source still derives the fixed default date
20250810, while the claimed directory-inferred derivation yields 20250811…;
the two disagree, so the date is not inferred from the containing directory
with the fixed date as a last resort. -/
theorem C7_counterexample :
    (createTranscriptionFromFile dirFS dirFile).id = "20250810160626" ∧
    specDeriveId "2025-08-11" "160626" = "20250811160626" ∧
    ("20250810160626" : String) ≠ "20250811160626" :=
  ⟨by decide, by decide, by decide⟩

/-- C7 amended: the id is derived from the file name alone — the containing
directory is never consulted, and a time-only name always receives the fixed
default date 20250810 — and the claim's two example derivations hold as
stated (the first because its directory happens to be 2025-08-10). -/
theorem C7_fixed_default_date :
    (∀ fs f, (createTranscriptionFromFile fs f).id = generate_id_from_filename f.name) ∧
    generate_id_from_filename "160626-voice-note.wav" = "20250810160626" ∧
    generate_id_from_filename "20250810-160626-voice-note.wav" = "20250810160626" := by
  refine ⟨fun fs f => ?_, by decide, by decide⟩
  simp only [createTranscriptionFromFile]
  split <;> rfl

/-- C2 evaluation at the failing input: a tree holding the single audio file
notes/2025/2025-08-10/160626-voice-note.ogg with no sibling txt.  The first
reconcile run inserts its record; the second run, with no filesystem change,
leaves the store unchanged but reports missing_files = 1 instead of 0,
because scan_audio_files accepts .ogg while file_exists_for_id probes only
the wav/mp3/m4a name patterns. -/
theorem C2_second_run_reports_missing :
    (syncFilesystem oggFS true (syncFilesystem oggFS true emptyDB 0).1 100).1 =
      (syncFilesystem oggFS true emptyDB 0).1 ∧
    (syncFilesystem oggFS true emptyDB 0).2 = ⟨1, 1, 0, 0, 0⟩ ∧
    (syncFilesystem oggFS true (syncFilesystem oggFS true emptyDB 0).1 100).2 =
      ⟨1, 0, 0, 1, 0⟩ ∧
    (syncFilesystem oggFS false (syncFilesystem oggFS false emptyDB 0).1 100).2 =
      ⟨1, 0, 0, 1, 0⟩ :=
  ⟨by decide, by decide, by decide, by decide⟩

/-- C3: the worker's failure handling keeps retry_count ≤ max_retries; below
the limit it re-queues with the count incremented, at the limit it fails the
task with the error recorded and the count unchanged; and a task with
max_retries = 2 failing three consecutive executions ends Failed with
retry_count = 2. -/
theorem C3_retry_policy :
    (∀ t err, t.retryCount ≤ t.maxRetries →
       (failStep t err).retryCount ≤ (failStep t err).maxRetries) ∧
    (∀ t err, t.retryCount < t.maxRetries →
       failStep t err = { t with status := "pending", retryCount := t.retryCount + 1 }) ∧
    (∀ t err, t.retryCount = t.maxRetries →
       failStep t err = { t with status := "failed", errorMessage := some err }) ∧
    (∀ t e1 e2 e3, t.retryCount = 0 → t.maxRetries = 2 →
       (failStep (failStep (failStep t e1) e2) e3).status = "failed" ∧
       (failStep (failStep (failStep t e1) e2) e3).retryCount = 2) := by
  refine ⟨fun t err h => ?_, fun t err h => ?_, fun t err h => ?_, fun t e1 e2 e3 h0 h2 => ?_⟩
  · unfold failStep; split <;> simp <;> omega
  · unfold failStep; simp [h]
  · unfold failStep; simp [h]
  · unfold failStep; simp [h0, h2]

/-- C3 witness at a concrete claimed task with retry_count 0, max_retries 2. -/
theorem C3_retry_policy_witness :
    (failStep (failStep (failStep exTask "e1") "e2") "e3").status = "failed" ∧
    (failStep (failStep (failStep exTask "e1") "e2") "e3").retryCount = 2 :=
  C3_retry_policy.2.2.2 exTask "e1" "e2" "e3" rfl rfl

/-- The task row enqueue_sync_task inserts satisfies its own guard. -/
theorem syncActive_mkSyncTask (tid : String) (b : Bool) (now : Nat) :
    syncActive (mkSyncTask tid b now) = true := by
  cases b <;> rfl

/-- C10: enqueue_sync_task is a no-op returning success whenever a sync task
is already pending or processing; it therefore never raises the number of
pending-or-processing FileSystemSync tasks above one, and from a state with
none it leaves exactly one. -/
theorem C10_sync_enqueue_noop :
    (∀ db tid b now, db.tasks.any syncActive = true →
       enqueueSyncTask db tid b now = db) ∧
    (∀ db tid b now, countSyncActive db ≤ 1 →
       countSyncActive (enqueueSyncTask db tid b now) ≤ 1) ∧
    (∀ db tid b now, countSyncActive db = 0 →
       countSyncActive (enqueueSyncTask db tid b now) = 1) := by
  have hins : ∀ db tid b now, db.tasks.any syncActive = false →
      countSyncActive (enqueueSyncTask db tid b now) = 1 := by
    intro db tid b now h
    have h0 : db.tasks.countP syncActive = 0 := by
      refine List.countP_eq_zero.mpr ?_
      intro t ht
      have := List.any_eq_false.mp h t ht
      simpa using this
    unfold enqueueSyncTask countSyncActive
    rw [h]
    simp [List.countP_append, syncActive_mkSyncTask, countSyncActive] at *
    simpa [List.countP_eq_zero] using h0
  refine ⟨fun db tid b now h => ?_, fun db tid b now h => ?_, fun db tid b now h => ?_⟩
  · simp [enqueueSyncTask, h]
  · cases hany : db.tasks.any syncActive
    · rw [hins db tid b now hany]
    · simpa [enqueueSyncTask, hany] using h
  · cases hany : db.tasks.any syncActive
    · exact hins db tid b now hany
    · exfalso
      rcases List.any_eq_true.mp hany with ⟨t, ht, hsa⟩
      have hpos : 0 < countSyncActive db := List.countP_pos_iff.mpr ⟨t, ht, hsa⟩
      omega

/-- C10 witness: with one sync task pending, a second enqueue changes
nothing and the pending-or-processing sync-task count stays at one. -/
theorem C10_sync_enqueue_noop_witness :
    enqueueSyncTask (enqueueSyncTask emptyDB "s1" false 3) "s2" false 4 =
      enqueueSyncTask emptyDB "s1" false 3 ∧
    countSyncActive (enqueueSyncTask (enqueueSyncTask emptyDB "s1" false 3) "s2" false 4) ≤ 1 :=
  ⟨C10_sync_enqueue_noop.1 (enqueueSyncTask emptyDB "s1" false 3) "s2" false 4 (by decide),
   C10_sync_enqueue_noop.2.1 (enqueueSyncTask emptyDB "s1" false 3) "s2" false 4 (by decide)⟩

/-- Arithmetic reading of the `ORDER BY priority DESC, created_at` order. -/
theorem sortsBefore_iff (b a : TaskRow) :
    sortsBefore b a = true ↔
      a.priority < b.priority ∨ (b.priority = a.priority ∧ b.createdAt < a.createdAt) := by
  simp [sortsBefore]

theorem sortsBefore_irrefl (a : TaskRow) : sortsBefore a a = false := by
  rw [Bool.eq_false_iff, Ne, sortsBefore_iff]
  omega

theorem sortsBefore_trans {c b a : TaskRow} (h1 : sortsBefore c b = true)
    (h2 : sortsBefore b a = true) : sortsBefore c a = true := by
  rw [sortsBefore_iff] at h1 h2 ⊢
  omega

theorem sortsBefore_asymm {b a : TaskRow} (h : sortsBefore b a = true) :
    sortsBefore a b = false := by
  rw [Bool.eq_false_iff, Ne, sortsBefore_iff]
  rw [sortsBefore_iff] at h
  omega

theorem pickBetter_cases (a b : TaskRow) : pickBetter a b = a ∨ pickBetter a b = b := by
  unfold pickBetter; split
  exacts [Or.inr rfl, Or.inl rfl]

theorem not_before_pickBetter_left (a b : TaskRow) :
    sortsBefore a (pickBetter a b) = false := by
  unfold pickBetter; split
  · exact sortsBefore_asymm (by assumption)
  · exact sortsBefore_irrefl a

theorem not_before_pickBetter_right (a b : TaskRow) :
    sortsBefore b (pickBetter a b) = false := by
  unfold pickBetter; split
  · exact sortsBefore_irrefl b
  · simpa using (by assumption : ¬ sortsBefore b a = true)

theorem not_before_neg_trans {x y z : TaskRow} (h1 : sortsBefore x y = false)
    (h2 : sortsBefore y z = false) : sortsBefore x z = false := by
  rw [Bool.eq_false_iff, Ne, sortsBefore_iff] at h1 h2 ⊢
  omega

theorem selectFrom_mem (l : List TaskRow) :
    ∀ best, selectFrom best l = best ∨ selectFrom best l ∈ l := by
  induction l with
  | nil => exact fun best => Or.inl rfl
  | cons t rest ih =>
    intro best
    simp only [selectFrom]
    rcases ih (pickBetter best t) with h | h
    · rcases pickBetter_cases best t with h2 | h2
      · exact Or.inl (h.trans h2)
      · refine Or.inr ?_
        rw [h, h2]
        exact List.mem_cons_self t rest
    · exact Or.inr (List.mem_cons_of_mem t h)

theorem selectFrom_not_before (l : List TaskRow) :
    ∀ best x, (x = best ∨ x ∈ l) → sortsBefore x (selectFrom best l) = false := by
  induction l with
  | nil =>
    intro best x hx
    rcases hx with rfl | h
    · exact sortsBefore_irrefl x
    · exact absurd h (List.not_mem_nil x)
  | cons t rest ih =>
    intro best x hx
    simp only [selectFrom]
    rcases hx with rfl | hx
    · exact not_before_neg_trans (not_before_pickBetter_left x t) (ih _ _ (Or.inl rfl))
    · rcases List.mem_cons.mp hx with rfl | hx2
      · exact not_before_neg_trans (not_before_pickBetter_right best x) (ih _ _ (Or.inl rfl))
      · exact ih _ x (Or.inr hx2)

/-- The selected claim target is a pending row no other pending row sorts
strictly before. -/
theorem selectPending_spec (tasks : List TaskRow) (t : TaskRow)
    (h : selectPendingTask tasks = some t) :
    t ∈ tasks ∧ isPending t = true ∧
      ∀ u ∈ tasks, isPending u = true → sortsBefore u t = false := by
  unfold selectPendingTask at h
  cases hf : tasks.filter isPending with
  | nil => rw [hf] at h; cases h
  | cons a rest =>
    rw [hf] at h
    injection h with h
    subst h
    have hmem : selectFrom a rest ∈ tasks.filter isPending := by
      rw [hf]
      rcases selectFrom_mem rest a with h2 | h2
      · rw [h2]; exact List.mem_cons_self a rest
      · exact List.mem_cons_of_mem a h2
    have hm2 := List.mem_filter.mp hmem
    refine ⟨hm2.1, hm2.2, fun u hu hup => ?_⟩
    have hu2 : u ∈ tasks.filter isPending := List.mem_filter.mpr ⟨hu, hup⟩
    rw [hf] at hu2
    rcases List.mem_cons.mp hu2 with h3 | h3
    · exact selectFrom_not_before rest a u (Or.inl h3)
    · exact selectFrom_not_before rest a u (Or.inr h3)

/-- C4: the claim statement always selects a pending task of maximal
priority, breaking priority ties by oldest creation time; and on the four
tasks with priorities [Low, High, Normal, High] created in that order, four
claim attempts return them in the order [High(1st), High(2nd), Normal, Low]. -/
theorem C4_claim_order :
    (∀ tasks t, selectPendingTask tasks = some t →
       t ∈ tasks ∧ isPending t = true ∧
       ∀ u ∈ tasks, isPending u = true →
         u.priority ≤ t.priority ∧ (u.priority = t.priority → t.createdAt ≤ u.createdAt)) ∧
    runClaims 9 4 ⟨exTasks, []⟩ = [some "t2", some "t4", some "t3", some "t1"] := by
  constructor
  · intro tasks t h
    obtain ⟨h1, h2, h3⟩ := selectPending_spec tasks t h
    refine ⟨h1, h2, fun u hu hup => ?_⟩
    have h4 := h3 u hu hup
    rw [Bool.eq_false_iff, Ne, sortsBefore_iff] at h4
    omega
  · decide

/-- C4 witness: the first claim on the example queue picks the older of the
two High tasks, and it is optimal among the pending rows. -/
theorem C4_claim_order_witness :
    mkT "t2" 2 1 ∈ exTasks ∧ isPending (mkT "t2" 2 1) = true ∧
    ∀ u ∈ exTasks, isPending u = true →
      u.priority ≤ (mkT "t2" 2 1).priority ∧
      (u.priority = (mkT "t2" 2 1).priority → (mkT "t2" 2 1).createdAt ≤ u.createdAt) :=
  C4_claim_order.1 exTasks (mkT "t2" 2 1) (by decide)

/-- C5: complete_task is one transaction.  When it succeeds, every task row
with the claimed id is Completed with completed_at set and the transcription
row linked through the task's transcription_id is Complete carrying the
produced text; when it fails (no such task row) no state is produced, the
transaction having rolled back. -/
theorem C5_complete_transactional :
    (∀ db taskId text now db', completeTask db taskId text now = some db' →
       (∀ r ∈ db'.tasks, r.id = taskId → r.status = "completed" ∧ r.completedAt = some now) ∧
       ∃ r ∈ db.tasks, r.id = taskId ∧
         ∀ tr ∈ db'.transcriptions, tr.id = r.transcriptionId →
           tr.status = "complete" ∧ tr.transcriptionText = some text ∧
             tr.transcribedAt = some now) ∧
    (∀ db taskId text now, completeTask db taskId text now = none →
       ∀ r ∈ db.tasks, r.id ≠ taskId) := by
  constructor
  · intro db taskId text now db' h
    simp only [completeTask] at h
    split at h
    · cases h
    · rename_i row hfind
      injection h with h
      subst h
      constructor
      · intro r hr hrid
        rcases List.mem_map.mp hr with ⟨r0, hr0, hr0eq⟩
        by_cases hid : r0.id = taskId
        · rw [if_pos hid] at hr0eq
          subst hr0eq
          exact ⟨rfl, rfl⟩
        · rw [if_neg hid] at hr0eq
          subst hr0eq
          exact absurd hrid hid
      · have hrowmem := List.mem_of_find?_eq_some hfind
        have hrowp := List.find?_some hfind
        simp only [] at hrowp
        rcases List.mem_map.mp hrowmem with ⟨r0, hr0, hr0eq⟩
        by_cases hid : r0.id = taskId
        · refine ⟨r0, hr0, hid, fun tr htr htrid => ?_⟩
          have hrowtid : row.transcriptionId = r0.transcriptionId := by
            rw [← hr0eq, if_pos hid]
          rcases List.mem_map.mp htr with ⟨tr0, htr0, htr0eq⟩
          by_cases hid2 : tr0.id = row.transcriptionId
          · rw [if_pos hid2] at htr0eq
            subst htr0eq
            exact ⟨rfl, rfl, rfl⟩
          · rw [if_neg hid2] at htr0eq
            subst htr0eq
            rw [hrowtid] at hid2
            exact absurd htrid hid2
        · rw [if_neg hid] at hr0eq
          subst hr0eq
          have : r0.id = taskId := by simpa using hrowp
          exact absurd this hid
  · intro db taskId text now h r hr hrid
    simp only [completeTask] at h
    split at h
    · rename_i hfind
      have hmem := List.mem_map_of_mem
        (fun r => if r.id = taskId then { r with status := "completed", completedAt := some now }
                  else r) hr
      have hnone := List.find?_eq_none.mp hfind _ hmem
      simp [hrid] at hnone
    · cases h

/-- C5 witness: completing the concrete claimed task updates both its row
and the linked transcription row in the produced state. -/
theorem C5_complete_transactional_witness :
    (∀ r ∈ c5res.tasks, r.id = "w1" → r.status = "completed" ∧ r.completedAt = some 9) ∧
    ∃ r ∈ c5db.tasks, r.id = "w1" ∧
      ∀ tr ∈ c5res.transcriptions, tr.id = r.transcriptionId →
        tr.status = "complete" ∧ tr.transcriptionText = some "hello" ∧
          tr.transcribedAt = some 9 :=
  C5_complete_transactional.1 c5db "w1" "hello" 9 c5res (by decide)

theorem selectPending_none_iff (tasks : List TaskRow) :
    selectPendingTask tasks = none ↔ tasks.countP isPending = 0 := by
  unfold selectPendingTask
  cases hf : tasks.filter isPending with
  | nil => simp [List.countP_eq_length_filter, hf]
  | cons a rest => simp [List.countP_eq_length_filter, hf]

/-- Attempts made while every row carrying `tid` is not pending claim it
zero times: a claim only picks a pending row and only flips rows of the
claimed id. -/
theorem runClaims_zero (now : Nat) (tid : String) :
    ∀ n db, (∀ r ∈ db.tasks, r.id = tid → r.status ≠ "pending") →
      claimedCount tid (runClaims now n db) = 0 := by
  intro n
  induction n with
  | zero => intro db _; rfl
  | succ n ih =>
    intro db h
    simp only [runClaims]
    cases hsel : selectPendingTask db.tasks with
    | none =>
      simp only [claimNextTask, hsel, claimedCount, List.countP_cons]
      have tail0 := ih db h
      simpa [claimedCount] using tail0
    | some t =>
      obtain ⟨hmem, hpend, _⟩ := selectPending_spec _ _ hsel
      have hne : t.id ≠ tid := by
        intro hc
        exact h t hmem hc (by simpa [isPending] using hpend)
      simp only [claimNextTask, hsel, claimedCount, List.countP_cons]
      have tail0 : claimedCount tid (runClaims now n
          { db with tasks := db.tasks.map (fun r =>
              if r.id = t.id then { t with status := "processing", startedAt := some now }
              else r) }) = 0 := by
        apply ih
        intro r' hr' hrid'
        rcases List.mem_map.mp hr' with ⟨r0, hr0, hr0eq⟩
        by_cases h0 : r0.id = t.id
        · rw [if_pos h0] at hr0eq
          subst hr0eq
          simp
        · rw [if_neg h0] at hr0eq
          subst hr0eq
          exact h r0 hr0 hrid'
      simpa [claimedCount, hne] using tail0

theorem countP_claim_map_le (t2 : TaskRow) (tidv : String) (ht2 : isPending t2 = false)
    (l : List TaskRow) :
    (l.map (fun r => if r.id = tidv then t2 else r)).countP isPending ≤
      l.countP isPending := by
  induction l with
  | nil => simp
  | cons hd rest ih =>
    rw [List.map_cons, List.countP_cons, List.countP_cons]
    have hhead : (if isPending (if hd.id = tidv then t2 else hd) = true then 1 else 0) ≤
        (if isPending hd = true then 1 else 0) := by
      by_cases hh : hd.id = tidv
      · rw [if_pos hh, ht2]
        simp
      · rw [if_neg hh]
    omega

/-- Claiming a pending row strictly lowers the pending count. -/
theorem countP_claim_map_lt (t2 : TaskRow) (tidv : String) (ht2 : isPending t2 = false) :
    ∀ (l : List TaskRow) (t : TaskRow), t ∈ l → isPending t = true → t.id = tidv →
      (l.map (fun r => if r.id = tidv then t2 else r)).countP isPending <
        l.countP isPending := by
  intro l
  induction l with
  | nil => intro t hm _ _; exact absurd hm (List.not_mem_nil t)
  | cons hd rest ih =>
    intro t hm hp1 htid
    have hle := countP_claim_map_le t2 tidv ht2 rest
    rw [List.map_cons, List.countP_cons, List.countP_cons]
    rcases List.mem_cons.mp hm with heq | hm2
    · have htid2 : hd.id = tidv := heq ▸ htid
      have hp2 : isPending hd = true := heq ▸ hp1
      have hA : (if isPending (if hd.id = tidv then t2 else hd) = true then 1 else 0) = 0 := by
        rw [if_pos htid2, ht2]
        decide
      have hB : (if isPending hd = true then 1 else 0) = 1 := by
        rw [hp2]
        decide
      omega
    · have hstrict := ih t hm2 hp1 htid
      have hhead : (if isPending (if hd.id = tidv then t2 else hd) = true then 1 else 0) ≤
          (if isPending hd = true then 1 else 0) := by
        by_cases hh : hd.id = tidv
        · rw [if_pos hh, ht2]
          simp
        · rw [if_neg hh]
      omega

/-- C1: with the claim implemented as the single atomic conditional update
`claimNextTask` (one `UPDATE ... WHERE id = (SELECT ...) RETURNING`
statement, no separate read), any interleaving of n whole claim attempts
against a store holding a pending task `tid` claims it exactly once, as soon
as n covers the pending backlog. -/
theorem C1_exactly_one_claim (now n : Nat) (db : DB) (tid : String)
    (hp : ∃ r ∈ db.tasks, r.id = tid ∧ r.status = "pending")
    (hn : pendingCount db ≤ n) :
    claimedCount tid (runClaims now n db) = 1 := by
  induction n generalizing db with
  | zero =>
    exfalso
    rcases hp with ⟨r, hr, _, hrp⟩
    have hpos : 0 < pendingCount db :=
      List.countP_pos_iff.mpr ⟨r, hr, by simp [isPending, hrp]⟩
    omega
  | succ n ih =>
    cases hsel : selectPendingTask db.tasks with
    | none =>
      exfalso
      rcases hp with ⟨r, hr, _, hrp⟩
      have h0 := (selectPending_none_iff db.tasks).mp hsel
      have hpos : 0 < db.tasks.countP isPending :=
        List.countP_pos_iff.mpr ⟨r, hr, by simp [isPending, hrp]⟩
      omega
    | some t =>
      obtain ⟨hmem, hpend, _⟩ := selectPending_spec _ _ hsel
      simp only [runClaims, claimNextTask, hsel]
      by_cases hid : t.id = tid
      · have tail0 : claimedCount tid (runClaims now n
            { db with tasks := db.tasks.map (fun r =>
                if r.id = t.id then { t with status := "processing", startedAt := some now }
                else r) }) = 0 := by
          apply runClaims_zero
          intro r' hr' hrid'
          rcases List.mem_map.mp hr' with ⟨r0, hr0, hr0eq⟩
          by_cases h0 : r0.id = t.id
          · rw [if_pos h0] at hr0eq
            subst hr0eq
            simp
          · rw [if_neg h0] at hr0eq
            subst hr0eq
            exact absurd (hrid'.trans hid.symm) h0
        simpa [claimedCount, List.countP_cons, hid] using tail0
      · have hp' : ∃ r ∈ (db.tasks.map (fun r =>
            if r.id = t.id then { t with status := "processing", startedAt := some now }
            else r)), r.id = tid ∧ r.status = "pending" := by
          rcases hp with ⟨r, hr, hrid, hrp⟩
          have hrne : r.id ≠ t.id := by
            rw [hrid]; exact fun hc => hid hc.symm
          exact ⟨r, List.mem_map.mpr ⟨r, hr, by simp [hrne]⟩, hrid, hrp⟩
        have hlt := countP_claim_map_lt
          { t with status := "processing", startedAt := some now } t.id (by simp [isPending])
          db.tasks t hmem hpend rfl
        have hn' : pendingCount { db with tasks := db.tasks.map (fun r =>
            if r.id = t.id then { t with status := "processing", startedAt := some now }
            else r) } ≤ n := by
          simp only [pendingCount] at hn ⊢
          omega
        have tail1 := ih _ hp' hn'
        simpa [claimedCount, List.countP_cons, hid] using tail1

/-- C1 witness: a concrete store with two pending rows, two attempts. -/
theorem C1_exactly_one_claim_witness :
    claimedCount "a" (runClaims 9 2 twoPendingDB) = 1 :=
  C1_exactly_one_claim 9 2 twoPendingDB "a" (by decide) (by decide)

theorem any_id_iff (l : List TransRow) (x : String) :
    (l.any (fun r => r.id == x) = true) ↔ x ∈ l.map (fun r => r.id) := by
  rw [List.any_eq_true]
  constructor
  · rintro ⟨r, hr, hbeq⟩
    exact List.mem_map.mpr ⟨r, hr, (by simpa using hbeq : r.id = x)⟩
  · intro h
    rcases List.mem_map.mp h with ⟨r, hr, hrx⟩
    exact ⟨r, hr, by simp [hrx]⟩

/-- Case analysis of one `process_audio_file` step: either the store is
untouched (the id was preloaded or already stored), or the candidate record
is appended, together with its orphan task exactly when it resolved
orphaned and a queue manager is attached. -/
theorem process_cases (fs : FS) (qm : Bool) (eids : List String) (s : PassState) (f : FSFile) :
    (((createTranscriptionFromFile fs f).id ∈ eids ∨
        (createTranscriptionFromFile fs f).id ∈ idsOf s.db) ∧
     (processAudioFile fs qm eids s f).db.tasks = s.db.tasks ∧
     (processAudioFile fs qm eids s f).db.transcriptions = s.db.transcriptions) ∨
    ((createTranscriptionFromFile fs f).id ∉ eids ∧
     (createTranscriptionFromFile fs f).id ∉ idsOf s.db ∧
     (processAudioFile fs qm eids s f).db.transcriptions =
       s.db.transcriptions ++ [createTranscriptionFromFile fs f] ∧
     (((processAudioFile fs qm eids s f).db.tasks = s.db.tasks ∧
        ((createTranscriptionFromFile fs f).status ≠ "orphaned" ∨ qm = false)) ∨
      ((processAudioFile fs qm eids s f).db.tasks = s.db.tasks ++
          [mkOrphanTask (uuidName s.uuid) (createTranscriptionFromFile fs f) f] ∧
        (createTranscriptionFromFile fs f).status = "orphaned" ∧ qm = true))) := by
  simp only [processAudioFile]
  split
  · rename_i hc
    left
    refine ⟨Or.inl (by simpa using hc), ?_, ?_⟩
    · split
      · split <;> rfl
      · rfl
    · split
      · split <;> rfl
      · rfl
  · rename_i hc
    split
    · rename_i hins
      left
      refine ⟨Or.inr ?_, rfl, rfl⟩
      unfold insertTranscription at hins
      split at hins
      · rename_i hany
        exact (any_id_iff _ _).mp hany
      · cases hins
    · rename_i db1 hins
      have hfacts : (createTranscriptionFromFile fs f).id ∉ idsOf s.db ∧
          db1 = { s.db with transcriptions :=
            s.db.transcriptions ++ [createTranscriptionFromFile fs f] } := by
        unfold insertTranscription at hins
        split at hins
        · cases hins
        · rename_i hany
          refine ⟨?_, ?_⟩
          · intro hmm
            rw [(any_id_iff _ _).mpr hmm] at hany
            exact hany rfl
          · injection hins with h
            exact h.symm
      obtain ⟨hnin, hdb1⟩ := hfacts
      subst hdb1
      right
      refine ⟨by simpa using hc, hnin, ?_⟩
      split
      · rename_i horph
        split
        · rename_i hq
          exact ⟨rfl, Or.inr ⟨rfl, by simpa using horph, hq⟩⟩
        · rename_i hq
          exact ⟨rfl, Or.inl ⟨rfl, Or.inr (by simpa using hq)⟩⟩
      · rename_i horph
        exact ⟨rfl, Or.inl ⟨rfl, Or.inl (by simpa using horph)⟩⟩

/-- Additive form of one step's effect on the task count for a given
transcription id. -/
theorem process_taskCount (fs : FS) (qm : Bool) (eids : List String) (s : PassState)
    (f : FSFile) (tid : String) :
    taskCountFor (processAudioFile fs qm eids s f).db tid =
      taskCountFor s.db tid +
      (if (createTranscriptionFromFile fs f).id = tid ∧ tid ∉ eids ∧ tid ∉ idsOf s.db ∧
          (createTranscriptionFromFile fs f).status = "orphaned" ∧ qm = true
       then 1 else 0) := by
  rcases process_cases fs qm eids s f with ⟨hc, htasks, _⟩ | ⟨hne, hnin, _, hioc⟩
  · have hcond : ¬((createTranscriptionFromFile fs f).id = tid ∧ tid ∉ eids ∧
        tid ∉ idsOf s.db ∧ (createTranscriptionFromFile fs f).status = "orphaned" ∧
        qm = true) := by
      rintro ⟨h1, h2, h3, _, _⟩
      rcases hc with h | h
      · exact h2 (h1 ▸ h)
      · exact h3 (h1 ▸ h)
    rw [if_neg hcond]
    unfold taskCountFor
    rw [htasks]
    omega
  · rcases hioc with ⟨htasks, hnoq⟩ | ⟨htasks, horph, hq⟩
    · have hcond : ¬((createTranscriptionFromFile fs f).id = tid ∧ tid ∉ eids ∧
          tid ∉ idsOf s.db ∧ (createTranscriptionFromFile fs f).status = "orphaned" ∧
          qm = true) := by
        rintro ⟨_, _, _, h4, h5⟩
        rcases hnoq with h | h
        · exact h h4
        · rw [h] at h5
          simp at h5
      rw [if_neg hcond]
      unfold taskCountFor
      rw [htasks]
      omega
    · by_cases hid : (createTranscriptionFromFile fs f).id = tid
      · rw [if_pos ⟨hid, hid ▸ hne, hid ▸ hnin, horph, hq⟩]
        unfold taskCountFor
        rw [htasks, List.countP_append]
        have h1 : List.countP (fun t => t.transcriptionId == tid)
            [mkOrphanTask (uuidName s.uuid) (createTranscriptionFromFile fs f) f] = 1 := by
          simp [mkOrphanTask, hid]
        omega
      · have hcond : ¬((createTranscriptionFromFile fs f).id = tid ∧ tid ∉ eids ∧
            tid ∉ idsOf s.db ∧ (createTranscriptionFromFile fs f).status = "orphaned" ∧
            qm = true) := by
          rintro ⟨h1, _⟩
          exact hid h1
        rw [if_neg hcond]
        unfold taskCountFor
        rw [htasks, List.countP_append]
        have h1 : List.countP (fun t => t.transcriptionId == tid)
            [mkOrphanTask (uuidName s.uuid) (createTranscriptionFromFile fs f) f] = 0 := by
          simp [mkOrphanTask, hid]
        omega

theorem passDelta_zero_left {fs : FS} {qm : Bool} {eids ids0 : List String}
    {files : List FSFile} {tid : String} (h : tid ∈ eids) :
    passDelta fs qm eids ids0 files tid = 0 := by
  unfold passDelta
  split
  · rfl
  · rw [if_pos (Or.inl h)]

theorem passDelta_zero_mid {fs : FS} {qm : Bool} {eids ids0 : List String}
    {files : List FSFile} {tid : String} (h : tid ∈ ids0) :
    passDelta fs qm eids ids0 files tid = 0 := by
  unfold passDelta
  split
  · rfl
  · rw [if_pos (Or.inr (Or.inl h))]

/-- Without an attached queue manager the pass never adds a task. -/
theorem passDelta_zero_noqueue {fs : FS} {eids ids0 : List String} {files : List FSFile}
    {tid : String} : passDelta fs false eids ids0 files tid = 0 := by
  unfold passDelta
  split
  · rfl
  · rw [if_pos (Or.inr (Or.inr (Or.inr rfl)))]

theorem passDelta_congr {fs : FS} {qm : Bool} {eids ids0 ids1 : List String}
    {files : List FSFile} {tid : String} (h : tid ∈ ids0 ↔ tid ∈ ids1) :
    passDelta fs qm eids ids0 files tid = passDelta fs qm eids ids1 files tid := by
  cases hf : files.find? (fun g => (createTranscriptionFromFile fs g).id == tid) with
  | none => simp only [passDelta, hf]
  | some f =>
    simp only [passDelta, hf]
    by_cases hc : tid ∈ eids ∨ tid ∈ ids0 ∨
        (createTranscriptionFromFile fs f).status ≠ "orphaned" ∨ qm = false
    · have hc2 : tid ∈ eids ∨ tid ∈ ids1 ∨
          (createTranscriptionFromFile fs f).status ≠ "orphaned" ∨ qm = false := by
        rcases hc with h1 | h1 | h1
        exacts [Or.inl h1, Or.inr (Or.inl (h.mp h1)), Or.inr (Or.inr h1)]
      rw [if_pos hc, if_pos hc2]
    · have hc2 : ¬(tid ∈ eids ∨ tid ∈ ids1 ∨
          (createTranscriptionFromFile fs f).status ≠ "orphaned" ∨ qm = false) := by
        intro h2
        apply hc
        rcases h2 with h1 | h1 | h1
        exacts [Or.inl h1, Or.inr (Or.inl (h.mpr h1)), Or.inr (Or.inr h1)]
      rw [if_neg hc, if_neg hc2]

theorem passDelta_cons_pos {fs : FS} {qm : Bool} {eids ids0 : List String} {f : FSFile}
    {files : List FSFile} {tid : String} (h : (createTranscriptionFromFile fs f).id = tid) :
    passDelta fs qm eids ids0 (f :: files) tid =
      if tid ∈ eids ∨ tid ∈ ids0 ∨ (createTranscriptionFromFile fs f).status ≠ "orphaned" ∨
          qm = false
      then 0 else 1 := by
  have hfind : (f :: files).find? (fun g => (createTranscriptionFromFile fs g).id == tid) =
      some f := List.find?_cons_of_pos _ (by simp [h])
  simp only [passDelta, hfind]

theorem passDelta_cons_neg {fs : FS} {qm : Bool} {eids ids0 : List String} {f : FSFile}
    {files : List FSFile} {tid : String} (h : (createTranscriptionFromFile fs f).id ≠ tid) :
    passDelta fs qm eids ids0 (f :: files) tid = passDelta fs qm eids ids0 files tid := by
  have hfind : (f :: files).find? (fun g => (createTranscriptionFromFile fs g).id == tid) =
      files.find? (fun g => (createTranscriptionFromFile fs g).id == tid) :=
    List.find?_cons_of_neg _ (by simp [h])
  simp only [passDelta, hfind]

/-- The whole first pass adds `passDelta` tasks for `tid`. -/
theorem pass_taskCount (fs : FS) (qm : Bool) (eids : List String) (tid : String) :
    ∀ (files : List FSFile) (s : PassState),
      taskCountFor (List.foldl (processAudioFile fs qm eids) s files).db tid =
        taskCountFor s.db tid + passDelta fs qm eids (idsOf s.db) files tid := by
  intro files
  induction files with
  | nil => intro s; simp [passDelta]
  | cons f rest ih =>
    intro s
    rw [List.foldl_cons, ih (processAudioFile fs qm eids s f),
      process_taskCount fs qm eids s f tid]
    by_cases hid : (createTranscriptionFromFile fs f).id = tid
    · rw [passDelta_cons_pos hid]
      by_cases h1 : tid ∈ eids
      · rw [if_pos (Or.inl h1), if_neg (by rintro ⟨_, h2, _, _⟩; exact h2 h1),
          passDelta_zero_left h1]
      · by_cases h2 : tid ∈ idsOf s.db
        · rw [if_pos (Or.inr (Or.inl h2)), if_neg (by rintro ⟨_, _, h3, _⟩; exact h3 h2)]
          rcases process_cases fs qm eids s f with ⟨_, _, htr⟩ | ⟨_, _, htr, _⟩
          · have hids : idsOf (processAudioFile fs qm eids s f).db = idsOf s.db := by
              unfold idsOf
              rw [htr]
            rw [hids, passDelta_zero_mid h2]
          · have hids : idsOf (processAudioFile fs qm eids s f).db =
                idsOf s.db ++ [(createTranscriptionFromFile fs f).id] := by
              unfold idsOf
              rw [htr, List.map_append]
              rfl
            rw [hids, passDelta_zero_mid (List.mem_append_left _ h2)]
        · by_cases h3 : (createTranscriptionFromFile fs f).status = "orphaned"
          · by_cases hq : qm = true
            · rw [if_pos ⟨hid, h1, h2, h3, hq⟩,
                if_neg (by
                  rintro (h | h | h | h)
                  · exact h1 h
                  · exact h2 h
                  · exact h h3
                  · rw [hq] at h; simp at h)]
              rcases process_cases fs qm eids s f with ⟨hc, _, _⟩ | ⟨_, _, htr, _⟩
              · exfalso
                rcases hc with h | h
                · exact h1 (hid ▸ h)
                · exact h2 (hid ▸ h)
              · have hids : idsOf (processAudioFile fs qm eids s f).db =
                    idsOf s.db ++ [(createTranscriptionFromFile fs f).id] := by
                  unfold idsOf
                  rw [htr, List.map_append]
                  rfl
                rw [hids,
                  passDelta_zero_mid (List.mem_append_right _ (by rw [hid]; exact List.mem_singleton.mpr rfl))]
            · have hqf : qm = false := by simpa using hq
              subst hqf
              rw [if_pos (Or.inr (Or.inr (Or.inr rfl))),
                if_neg (by rintro ⟨_, _, _, _, h5⟩; simp at h5),
                passDelta_zero_noqueue]
          · rw [if_pos (Or.inr (Or.inr (Or.inl h3))),
              if_neg (by rintro ⟨_, _, _, h4, _⟩; exact h3 h4)]
            rcases process_cases fs qm eids s f with ⟨hc, _, _⟩ | ⟨_, _, htr, _⟩
            · exfalso
              rcases hc with h | h
              · exact h1 (hid ▸ h)
              · exact h2 (hid ▸ h)
            · have hids : idsOf (processAudioFile fs qm eids s f).db =
                  idsOf s.db ++ [(createTranscriptionFromFile fs f).id] := by
                unfold idsOf
                rw [htr, List.map_append]
                rfl
              rw [hids,
                passDelta_zero_mid (List.mem_append_right _ (by rw [hid]; exact List.mem_singleton.mpr rfl))]
    · rw [passDelta_cons_neg hid, if_neg (by rintro ⟨h0, _⟩; exact hid h0)]
      rcases process_cases fs qm eids s f with ⟨_, _, htr⟩ | ⟨_, _, htr, _⟩
      · have hids : idsOf (processAudioFile fs qm eids s f).db = idsOf s.db := by
          unfold idsOf
          rw [htr]
        rw [hids]
        omega
      · have hids : idsOf (processAudioFile fs qm eids s f).db =
            idsOf s.db ++ [(createTranscriptionFromFile fs f).id] := by
          unfold idsOf
          rw [htr, List.map_append]
          rfl
        rw [hids, @passDelta_congr fs qm eids
          (idsOf s.db ++ [(createTranscriptionFromFile fs f).id]) (idsOf s.db) rest tid
          (by
            constructor
            · intro hm
              rcases List.mem_append.mp hm with hm2 | hm2
              · exact hm2
              · exact absurd (List.mem_singleton.mp hm2).symm hid
            · exact fun hm => List.mem_append_left _ hm)]
        omega

/-- The first pass only appends to the transcriptions table. -/
theorem pass_trans_append (fs : FS) (qm : Bool) (eids : List String) :
    ∀ (files : List FSFile) (s : PassState),
      ∃ l2, (List.foldl (processAudioFile fs qm eids) s files).db.transcriptions =
        s.db.transcriptions ++ l2 := by
  intro files
  induction files with
  | nil => intro s; exact ⟨[], by simp⟩
  | cons f rest ih =>
    intro s
    rw [List.foldl_cons]
    obtain ⟨l2, h2⟩ := ih (processAudioFile fs qm eids s f)
    rcases process_cases fs qm eids s f with ⟨_, _, htr⟩ | ⟨_, _, htr, _⟩
    · exact ⟨l2, by rw [h2, htr]⟩
    · exact ⟨[createTranscriptionFromFile fs f] ++ l2,
        by rw [h2, htr, List.append_assoc]⟩

theorem pass_trans_mono (fs : FS) (qm : Bool) (eids : List String) (files : List FSFile)
    (s : PassState) (r : TransRow) (hr : r ∈ s.db.transcriptions) :
    r ∈ (List.foldl (processAudioFile fs qm eids) s files).db.transcriptions := by
  obtain ⟨l2, h2⟩ := pass_trans_append fs qm eids files s
  rw [h2]
  exact List.mem_append_left _ hr

/-- Every task the first pass adds is a fresh pending Low-priority
TranscribeOrphan task. -/
theorem pass_tasks_mem (fs : FS) (qm : Bool) (eids : List String) :
    ∀ (files : List FSFile) (s : PassState) (t : TaskRow),
      t ∈ (List.foldl (processAudioFile fs qm eids) s files).db.tasks →
      t ∈ s.db.tasks ∨ (t.taskType = "TranscribeOrphan" ∧ t.priority = 0 ∧
        t.status = "pending" ∧ t.maxRetries = 2 ∧ t.retryCount = 0) := by
  intro files
  induction files with
  | nil => intro s t ht; exact Or.inl ht
  | cons f rest ih =>
    intro s t ht
    rw [List.foldl_cons] at ht
    rcases ih _ t ht with h | h
    · rcases process_cases fs qm eids s f with ⟨_, htasks, _⟩ | ⟨_, _, _, hioc⟩
      · rw [htasks] at h
        exact Or.inl h
      · rcases hioc with ⟨htasks, _⟩ | ⟨htasks, _⟩
        · rw [htasks] at h
          exact Or.inl h
        · rw [htasks] at h
          rcases List.mem_append.mp h with h2 | h2
          · exact Or.inl h2
          · right
            rw [List.mem_singleton.mp h2]
            exact ⟨rfl, rfl, rfl, rfl, rfl⟩
    · exact Or.inr h

/-- The candidate record of the first scanned file deriving a fresh id is in
the store after the pass. -/
theorem pass_cand_mem (fs : FS) (qm : Bool) (eids : List String) (tid : String) :
    ∀ (files : List FSFile) (s : PassState) (f : FSFile), tid ∉ eids → tid ∉ idsOf s.db →
      files.find? (fun g => (createTranscriptionFromFile fs g).id == tid) = some f →
      createTranscriptionFromFile fs f ∈
        (List.foldl (processAudioFile fs qm eids) s files).db.transcriptions := by
  intro files
  induction files with
  | nil => intro s f _ _ hfind; cases hfind
  | cons f0 rest ih =>
    intro s f h1 h2 hfind
    rw [List.foldl_cons]
    by_cases hp : (createTranscriptionFromFile fs f0).id = tid
    · have hff : f0 = f := by
        rw [List.find?_cons_of_pos _ (by simp [hp])] at hfind
        injection hfind
      subst hff
      rcases process_cases fs qm eids s f0 with ⟨hc, _, _⟩ | ⟨_, _, htr, _⟩
      · exfalso
        rcases hc with h | h
        · exact h1 (hp ▸ h)
        · exact h2 (hp ▸ h)
      · apply pass_trans_mono
        rw [htr]
        exact List.mem_append_right _ (List.mem_singleton.mpr rfl)
    · have hfind2 : rest.find? (fun g => (createTranscriptionFromFile fs g).id == tid) =
          some f := by
        rw [List.find?_cons_of_neg _ (by simp [hp])] at hfind
        exact hfind
      have h2x : tid ∉ idsOf (processAudioFile fs qm eids s f0).db := by
        rcases process_cases fs qm eids s f0 with ⟨_, _, htr⟩ | ⟨_, _, htr, _⟩
        · unfold idsOf
          rw [htr]
          exact h2
        · unfold idsOf
          rw [htr, List.map_append]
          intro hmm
          rcases List.mem_append.mp hmm with h | h
          · exact h2 h
          · have : tid = (createTranscriptionFromFile fs f0).id := by simpa using h
            exact hp this.symm
      exact ih _ f h1 h2x hfind2

theorem missingPass_tasks (fs : FS) :
    ∀ (ids : List String) (db : DB), (missingPass fs db ids).1.tasks = db.tasks := by
  intro ids
  induction ids with
  | nil => intro db; rfl
  | cons j rest ih =>
    intro db
    unfold missingPass
    split
    · exact ih db
    · show (missingPass fs (update_transcription_status db j "orphaned" none) rest).1.tasks =
        db.tasks
      rw [ih]
      rfl

theorem taskCountFor_missingPass (fs : FS) (db : DB) (ids : List String) (tid : String) :
    taskCountFor (missingPass fs db ids).1 tid = taskCountFor db tid := by
  unfold taskCountFor
  rw [missingPass_tasks]

/-- The whole deleted-file loop acts row-wise as `missFix`. -/
theorem missingPass_trans (fs : FS) :
    ∀ (ids : List String) (db : DB),
      (missingPass fs db ids).1.transcriptions = db.transcriptions.map (missFix fs ids) := by
  intro ids
  induction ids with
  | nil =>
    intro db
    have h1 : missFix fs [] = fun (r : TransRow) => r := by
      funext r
      simp [missFix]
    show db.transcriptions = db.transcriptions.map (missFix fs [])
    rw [h1, List.map_id']
  | cons j rest ih =>
    intro db
    unfold missingPass
    split
    · rename_i hex
      have hex2 : file_exists_for_id fs j = true := hex
      rw [ih db]
      apply List.map_congr_left
      intro r _
      by_cases hr : r.id = j
      · simp [missFix, hr, hex2]
      · simp [missFix, List.contains_cons, hr]
    · rename_i hex
      have hex2 : file_exists_for_id fs j = false := by
        simpa using hex
      show (missingPass fs (update_transcription_status db j "orphaned" none) rest).1.transcriptions =
        db.transcriptions.map (missFix fs (j :: rest))
      rw [ih]
      unfold update_transcription_status
      show (db.transcriptions.map (fun r =>
          if r.id = j then { r with status := "orphaned", errorMessage := none } else r)).map
          (missFix fs rest) =
        db.transcriptions.map (missFix fs (j :: rest))
      rw [List.map_map]
      apply List.map_congr_left
      intro r _
      by_cases hr : r.id = j
      · simp [Function.comp, missFix, hr, hex2, List.contains_cons]
      · simp [Function.comp, missFix, hr, List.contains_cons]

theorem missFix_id (fs : FS) (ids : List String) (r : TransRow) :
    (missFix fs ids r).id = r.id := by
  unfold missFix
  split <;> rfl

theorem missFix_status_orphaned (fs : FS) (ids : List String) (r : TransRow)
    (h : r.status = "orphaned") : (missFix fs ids r).status = "orphaned" := by
  unfold missFix
  split
  · rfl
  · exact h

theorem missFix_eq_soft (fs : FS) (ids : List String) (r : TransRow)
    (hcont : ids.contains r.id = true) (hex : file_exists_for_id fs r.id = false) :
    missFix fs ids r = { r with status := "orphaned", errorMessage := none } := by
  unfold missFix
  rw [hcont, hex]
  rfl

theorem soft_eq_of_none (r : TransRow) (h : r.errorMessage = none) :
    ({ r with status := "orphaned", errorMessage := none } : TransRow) =
      { r with status := "orphaned" } := by
  cases r
  simp_all

theorem syncFilesystem_fst (fs : FS) (qm : Bool) (db : DB) (u0 : Nat) :
    (syncFilesystem fs qm db u0).1 =
      (missingPass fs
        (List.foldl (processAudioFile fs qm (idsOf db)) ⟨db, u0, 0, 0, 0⟩
          (scanAudioFiles fs)).db
        (idsOf db)).1 := rfl

/-- C9: on either reconciliation path, a pre-existing record whose backing
file the existence check cannot locate survives reconciliation with exactly
its status flipped to orphaned (the update also writes error_message, with
the null the record of the claim's previously-synced scenario already
carries); and more generally a pre-existing record is never deleted — it is
either untouched or soft-marked orphaned. -/
theorem C9_missing_soft_delete :
    (∀ fs qm db u0 r, r ∈ db.transcriptions → r.errorMessage = none →
       file_exists_for_id fs r.id = false →
       ({ r with status := "orphaned" } : TransRow) ∈
         (syncFilesystem fs qm db u0).1.transcriptions) ∧
    (∀ fs qm db u0 s0, s0 ∈ db.transcriptions →
       s0 ∈ (syncFilesystem fs qm db u0).1.transcriptions ∨
       ({ s0 with status := "orphaned", errorMessage := none } : TransRow) ∈
         (syncFilesystem fs qm db u0).1.transcriptions) := by
  constructor
  · intro fs qm db u0 r hr herr hex
    rw [syncFilesystem_fst, missingPass_trans]
    have hr2 : r ∈ (List.foldl (processAudioFile fs qm (idsOf db)) ⟨db, u0, 0, 0, 0⟩
        (scanAudioFiles fs)).db.transcriptions :=
      pass_trans_mono fs qm (idsOf db) (scanAudioFiles fs) ⟨db, u0, 0, 0, 0⟩ r hr
    have hcont : (idsOf db).contains r.id = true :=
      List.elem_eq_true_of_mem (List.mem_map_of_mem (fun r => r.id) hr)
    have himg := List.mem_map_of_mem (missFix fs (idsOf db)) hr2
    rw [missFix_eq_soft fs (idsOf db) r hcont hex, soft_eq_of_none r herr] at himg
    exact himg
  · intro fs qm db u0 s0 hs0
    rw [syncFilesystem_fst, missingPass_trans]
    have hs2 : s0 ∈ (List.foldl (processAudioFile fs qm (idsOf db)) ⟨db, u0, 0, 0, 0⟩
        (scanAudioFiles fs)).db.transcriptions :=
      pass_trans_mono fs qm (idsOf db) (scanAudioFiles fs) ⟨db, u0, 0, 0, 0⟩ s0 hs0
    have himg := List.mem_map_of_mem (missFix fs (idsOf db)) hs2
    unfold missFix at himg
    by_cases hcond : ((idsOf db).contains s0.id && !(file_exists_for_id fs s0.id)) = true
    · right
      rwa [if_pos hcond] at himg
    · left
      rwa [if_neg hcond] at himg

/-- C9 witness: the previously-synced record recA whose file is gone
survives the pass with its status flipped to orphaned. -/
theorem C9_missing_soft_delete_witness :
    ({ recA with status := "orphaned" } : TransRow) ∈
      (syncFilesystem gone true recDB 0).1.transcriptions ∧
    (recA ∈ (syncFilesystem gone true recDB 0).1.transcriptions ∨
      ({ recA with status := "orphaned", errorMessage := none } : TransRow) ∈
        (syncFilesystem gone true recDB 0).1.transcriptions) :=
  ⟨C9_missing_soft_delete.1 gone true recDB 0 recA (by decide) (by decide) (by decide),
   C9_missing_soft_delete.2 gone true recDB 0 recA (by decide)⟩

/-- C8 counterexample: the reconciliation path the claim itself cites — the
background worker's FileSystemSync task (queue_manager.rs:408-423) — builds
`FileSystemSync::new` without `.with_queue_manager`, so on a fresh orphan
wav file it inserts the orphaned record but enqueues zero TranscribeOrphan
tasks; "exactly one enqueued task" fails on that run. -/
theorem C8_counterexample :
    (createTranscriptionFromFile wavFS wavFile).status = "orphaned" ∧
    scanAudioFiles wavFS = [wavFile] ∧
    (∃ r ∈ (syncFilesystem wavFS false emptyDB 0).1.transcriptions,
       r.id = "20250810160626" ∧ r.status = "orphaned") ∧
    taskCountFor (syncFilesystem wavFS false emptyDB 0).1 "20250810160626" = 0 ∧
    (syncFilesystem wavFS false emptyDB 0).1.tasks = [] :=
  ⟨by decide, by decide, by decide, by decide, by decide⟩

/-- C8 amended: when reconciliation runs with the queue manager attached
(the manually triggered sync command, sync/mod.rs:297-298), a discovered
audio file with no sibling txt whose fresh id no task references yields a
stored orphaned record and exactly one task for that id — a pending
Low-priority TranscribeOrphan task with max_retries 2; on either path a
pass while the id is already stored (a second scan before the task
completes) leaves the task count unchanged, as does a file resolving
complete; and a pass without the queue manager (the background worker's
FileSystemSync task) never enqueues anything for any id. -/
theorem C8_orphan_task_with_queue :
    (∀ fs db u0 tid f,
       tid ∉ idsOf db → taskCountFor db tid = 0 →
       (scanAudioFiles fs).find?
           (fun g => (createTranscriptionFromFile fs g).id == tid) = some f →
       (createTranscriptionFromFile fs f).status = "orphaned" →
       taskCountFor (syncFilesystem fs true db u0).1 tid = 1 ∧
       (∃ r ∈ (syncFilesystem fs true db u0).1.transcriptions,
          r.id = tid ∧ r.status = "orphaned") ∧
       (∀ t ∈ (syncFilesystem fs true db u0).1.tasks, t.transcriptionId = tid →
          t.taskType = "TranscribeOrphan" ∧ t.priority = 0 ∧ t.status = "pending" ∧
            t.maxRetries = 2)) ∧
    (∀ fs qm db u0 tid, tid ∈ idsOf db →
       taskCountFor (syncFilesystem fs qm db u0).1 tid = taskCountFor db tid) ∧
    (∀ fs qm db u0 tid f,
       (scanAudioFiles fs).find?
           (fun g => (createTranscriptionFromFile fs g).id == tid) = some f →
       (createTranscriptionFromFile fs f).status = "complete" →
       taskCountFor (syncFilesystem fs qm db u0).1 tid = taskCountFor db tid) ∧
    (∀ fs db u0 tid,
       taskCountFor (syncFilesystem fs false db u0).1 tid = taskCountFor db tid) := by
  refine ⟨?_, ?_, ?_, ?_⟩
  · intro fs db u0 tid f hfresh hcount0 hfind horph
    have hcid : (createTranscriptionFromFile fs f).id = tid := by
      have := List.find?_some hfind
      simpa using this
    refine ⟨?_, ?_, ?_⟩
    · rw [syncFilesystem_fst, taskCountFor_missingPass, pass_taskCount]
      simp only [passDelta, hfind]
      rw [if_neg (by
        rintro (h | h | h | h)
        · exact hfresh h
        · exact hfresh h
        · exact h horph
        · simp at h)]
      have hbase : taskCountFor (⟨db, u0, 0, 0, 0⟩ : PassState).db tid = 0 := hcount0
      rw [hbase]
    · rw [syncFilesystem_fst, missingPass_trans]
      have hmem := pass_cand_mem fs true (idsOf db) tid (scanAudioFiles fs)
        ⟨db, u0, 0, 0, 0⟩ f hfresh hfresh hfind
      refine ⟨missFix fs (idsOf db) (createTranscriptionFromFile fs f),
        List.mem_map_of_mem _ hmem, ?_, ?_⟩
      · rw [missFix_id]
        exact hcid
      · exact missFix_status_orphaned _ _ _ horph
    · intro t ht htid
      rw [syncFilesystem_fst, missingPass_tasks] at ht
      rcases pass_tasks_mem fs true (idsOf db) (scanAudioFiles fs) ⟨db, u0, 0, 0, 0⟩ t ht
        with h | h
      · exfalso
        have hz := List.countP_eq_zero.mp hcount0 t h
        simp [htid] at hz
      · exact ⟨h.1, h.2.1, h.2.2.1, h.2.2.2.1⟩
  · intro fs qm db u0 tid hstored
    rw [syncFilesystem_fst, taskCountFor_missingPass, pass_taskCount,
      passDelta_zero_left hstored]
    rfl
  · intro fs qm db u0 tid f hfind hcomplete
    rw [syncFilesystem_fst, taskCountFor_missingPass, pass_taskCount]
    simp only [passDelta, hfind]
    rw [if_pos (Or.inr (Or.inr (Or.inl (by rw [hcomplete]; decide))))]
    rfl
  · intro fs db u0 tid
    rw [syncFilesystem_fst, taskCountFor_missingPass, pass_taskCount,
      passDelta_zero_noqueue]
    rfl

/-- C8 witness: the standard wav scenario for each conjunct — with the queue
manager a fresh orphan file enqueues one task, a second scan with the id
stored adds none, a file with a txt sibling adds none, and the no-queue
path adds none. -/
theorem C8_orphan_task_with_queue_witness :
    (taskCountFor (syncFilesystem wavFS true emptyDB 0).1 "20250810160626" = 1 ∧
     (∃ r ∈ (syncFilesystem wavFS true emptyDB 0).1.transcriptions,
        r.id = "20250810160626" ∧ r.status = "orphaned") ∧
     (∀ t ∈ (syncFilesystem wavFS true emptyDB 0).1.tasks,
        t.transcriptionId = "20250810160626" →
        t.taskType = "TranscribeOrphan" ∧ t.priority = 0 ∧ t.status = "pending" ∧
          t.maxRetries = 2)) ∧
    taskCountFor (syncFilesystem wavFS true wavDB1 100).1 "20250810160626" =
      taskCountFor wavDB1 "20250810160626" ∧
    taskCountFor (syncFilesystem wavTxtFS true emptyDB 0).1 "20250810160626" =
      taskCountFor emptyDB "20250810160626" ∧
    taskCountFor (syncFilesystem oggFS false emptyDB 0).1 "20250810160626" =
      taskCountFor emptyDB "20250810160626" :=
  ⟨C8_orphan_task_with_queue.1 wavFS emptyDB 0 "20250810160626" wavFile (by decide)
      (by decide) (by decide) (by decide),
   C8_orphan_task_with_queue.2.1 wavFS true wavDB1 100 "20250810160626" (by decide),
   C8_orphan_task_with_queue.2.2.1 wavTxtFS true emptyDB 0 "20250810160626" wavFile
     (by decide) (by decide),
   C8_orphan_task_with_queue.2.2.2 oggFS emptyDB 0 "20250810160626"⟩

end VoiceTextRS
